import Mathlib

/-!
# Calmly: a shallow embedding of `src/App.jsx`

The React component `App` is embedded as an explicit state record (one field per
`useState` cell) whose event handlers are pure functions on that record.  React
state setters become record updates; the clock (`new Date()`), the date formatter
and the host storage are parameters.
-/

set_option autoImplicit false

namespace Calmly

/-! ## Catalogs (`MOODS`, `EXERCISES`) -/

/-- One element of the `MOODS` array.  `value` is a JavaScript number; every value
of the catalog is a dyadic rational, represented exactly. -/
structure Mood where
  id : String
  label : String
  emoji : String
  color : String
  value : ℚ
  support : String

/-- The constant `MOODS`. -/
def MOODS : List Mood :=
  [ { id := "happy", label := "Happy", emoji := "😊", color := "bg-emerald-100 text-emerald-900",
      value := 4, support := "Love that energy! Want to keep the good vibes going?" },
    { id := "okay", label := "Okay", emoji := "😐", color := "bg-sky-100 text-sky-900",
      value := 3, support := "Feeling neutral is totally fine. Let's do a tiny recharge." },
    { id := "sad", label := "Sad", emoji := "😢", color := "bg-blue-100 text-blue-900",
      value := 2, support := "It's okay to feel low. You're not alone. Want something gentle?" },
    { id := "angry", label := "Angry", emoji := "😡", color := "bg-orange-100 text-orange-900",
      value := 1, support := "That sounds tough. Let's release some tension safely." },
    { id := "anxious", label := "Anxious", emoji := "😰", color := "bg-purple-100 text-purple-900",
      value := 3 / 2, support := "Anxiety can feel heavy. Let's try a calm, steady exercise." } ]

/-- The ids of the constant `EXERCISES`. -/
def EXERCISES : List String := ["breathing", "grounding", "meditation", "quote"]

/-- The `MOODS` element with id `"sad"`. -/
def moodSad : Mood :=
  { id := "sad", label := "Sad", emoji := "😢", color := "bg-blue-100 text-blue-900",
    value := 2, support := "It's okay to feel low. You're not alone. Want something gentle?" }

/-! ## JavaScript string helpers used by `completeSession` -/

/-- ECMAScript `WhiteSpace` and `LineTerminator` code points, the characters
`String.prototype.trim` strips. -/
def isJsWhiteSpace (c : Char) : Bool :=
  let n := c.toNat
  n == 0x09 || n == 0x0A || n == 0x0B || n == 0x0C || n == 0x0D || n == 0x20 ||
  n == 0xA0 || n == 0x1680 || (0x2000 ≤ n && n ≤ 0x200A) ||
  n == 0x2028 || n == 0x2029 || n == 0x202F || n == 0x205F || n == 0x3000 || n == 0xFEFF

/-- Removes the longest white-space prefix and suffix of a character sequence. -/
def trimChars (cs : List Char) : List Char :=
  ((cs.dropWhile isJsWhiteSpace).reverse.dropWhile isJsWhiteSpace).reverse

/-- `String.prototype.trim`. -/
def jsTrim (s : String) : String := String.mk (trimChars s.data)

/-- The expression `note?.trim() || null` for a string `note`: the empty string is
the only falsy string, so an empty trimmed note becomes `null`. -/
def noteField (note : String) : Option String :=
  let t := jsTrim note
  if t = "" then none else some t

/-! ## Application state and `completeSession` -/

/-- One element of the persisted history array. -/
structure HistoryEntry where
  ts : String
  mood : String
  value : ℚ
  note : Option String

/-- The `screen` state cell. -/
inductive Screen where
  | home | support | exercise | closing | history
  deriving DecidableEq, Repr

/-- The five `useState` cells of `App`. -/
structure AppState where
  screen : Screen
  mood : Option Mood
  exercise : Option String
  note : String
  history : List HistoryEntry

/-- The object literal `entry` built inside `completeSession`; `now` is the value of
`new Date().toISOString()`. -/
def mkEntry (now : String) (mood : Mood) (note : String) : HistoryEntry :=
  { ts := now, mood := mood.id, value := mood.value, note := noteField note }

/-- The handler `completeSession`. -/
def completeSession (now : String) (st : AppState) : AppState :=
  let history :=
    match st.mood with
    | some mood => (mkEntry now mood st.note :: st.history).take 60
    | none => st.history
  { screen := Screen.home, mood := none, exercise := none, note := "", history := history }

/-- What one save needs from its surroundings: the clock reading and the session
at the moment `completeSession` runs with a mood selected. -/
structure SaveInput where
  now : String
  mood : Mood
  exercise : Option String
  note : String

/-- The entry a save stores. -/
def SaveInput.entry (sv : SaveInput) : HistoryEntry := mkEntry sv.now sv.mood sv.note

/-- The history after `completeSession` runs on the Closing screen with the session
of `sv` over the history `h`. -/
def saveStep (h : List HistoryEntry) (sv : SaveInput) : List HistoryEntry :=
  (completeSession sv.now
    { screen := Screen.closing, mood := some sv.mood, exercise := sv.exercise,
      note := sv.note, history := h }).history

/-- The history after a sequence of saves, oldest save first. -/
def runSaves (h : List HistoryEntry) (svs : List SaveInput) : List HistoryEntry :=
  svs.foldl saveStep h

/-! ## Event handlers of `App` -/

/-- The handler `startSupport`. -/
def startSupport (m : Mood) (st : AppState) : AppState :=
  { st with mood := some m, screen := Screen.support }

/-- The handler `onPickExercise`. -/
def onPickExercise (exId : String) (st : AppState) : AppState :=
  { st with exercise := some exId, screen := Screen.exercise }

/-- The `onBack` prop of `SupportScreen`: `() => setScreen("home")`. -/
def onBack (st : AppState) : AppState := { st with screen := Screen.home }

/-- The `onFinish` prop of `ExerciseScreen`: `() => setScreen("closing")`. -/
def onFinish (st : AppState) : AppState := { st with screen := Screen.closing }

/-- The `onClick` of the header button titled "Home": `() => setScreen("home")`. -/
def onNavHome (st : AppState) : AppState := { st with screen := Screen.home }

/-- The `onClick` of the header button titled "History": `() => setScreen("history")`. -/
def onNavHistory (st : AppState) : AppState := { st with screen := Screen.history }

/-- The state setter `setNote`, called by the textarea of `ClosingScreen`. -/
def setNote (s : String) (st : AppState) : AppState := { st with note := s }

/-- `ExerciseScreen` renders a runner (the only holder of `onFinish`) exactly for the
four known exercise ids and `null` otherwise. -/
def rendersRunner (exercise : Option String) : Bool :=
  exercise == some "breathing" || exercise == some "grounding" ||
  exercise == some "meditation" || exercise == some "quote"

/-- The user-level events of `App`.  `save` carries the clock reading. -/
inductive Event where
  | pickMood (m : Mood)
  | back
  | chooseExercise (exId : String)
  | finishExercise
  | setNote (s : String)
  | save (now : String)
  | navHome
  | navHistory

/-- One event against the rendered tree of `App`: a control acts only on the screen
that renders it (the `screen === ... &&` dispatch in `main`); the two header buttons
are always rendered. -/
def step (st : AppState) : Event → AppState
  | Event.pickMood m => if st.screen = Screen.home then startSupport m st else st
  | Event.back => if st.screen = Screen.support then onBack st else st
  | Event.chooseExercise exId =>
      if st.screen = Screen.support then onPickExercise exId st else st
  | Event.finishExercise =>
      if st.screen = Screen.exercise ∧ rendersRunner st.exercise = true then onFinish st else st
  | Event.setNote s => if st.screen = Screen.closing then setNote s st else st
  | Event.save now => if st.screen = Screen.closing then completeSession now st else st
  | Event.navHome => onNavHome st
  | Event.navHistory => onNavHistory st

/-- The state of `App` on mount, over the history loaded from storage. -/
def initialState (history : List HistoryEntry) : AppState :=
  { screen := Screen.home, mood := none, exercise := none, note := "", history := history }

/-- Runs a sequence of events. -/
def run (st : AppState) (evs : List Event) : AppState := evs.foldl step st

/-- The session (`mood`, `exercise`, `note`) is the one `App` starts with. -/
def sessionEmpty (st : AppState) : Bool :=
  st.mood.isNone && st.exercise.isNone && st.note == ""

/-- The state of an abandoned session: Sad, Breathing, finished, note "abc" typed on
the Closing screen. -/
def abandonedClosing : AppState :=
  run (initialState [])
    [Event.pickMood moodSad, Event.chooseExercise "breathing", Event.finishExercise,
     Event.setNote "abc"]

/-- On the screens that show the session's mood (Support, Exercise, Closing) a mood
is selected. -/
def moodPresent (st : AppState) : Prop :=
  (st.screen = Screen.support ∨ st.screen = Screen.exercise ∨ st.screen = Screen.closing) →
    st.mood.isSome = true

/-! ## `HistoryScreen` -/

/-- One element of `data` in `HistoryScreen`. -/
structure ChartRow where
  idx : Nat
  value : ℚ
  label : String
  note : String

/-- The expression `h.note || ""`. -/
def noteOrEmpty : Option String → String
  | some s => if s = "" then "" else s
  | none => ""

/-- The array `data` of `HistoryScreen`; `dateLabel ts` stands for
`new Date(ts).toLocaleDateString()`. -/
def historyScreenData (dateLabel : String → String) (history : List HistoryEntry) :
    List ChartRow :=
  ((history.take 20).reverse).mapIdx fun i h =>
    { idx := i + 1, value := h.value, label := dateLabel h.ts, note := noteOrEmpty h.note }

/-! ## `Grounding` -/

/-- The array `steps` of `Grounding`. -/
def groundingSteps : List String :=
  [ "Name 5 things you can SEE.",
    "Name 4 things you can TOUCH.",
    "Name 3 things you can HEAR.",
    "Name 2 things you can SMELL.",
    "Name 1 thing you can TASTE." ]

/-- The updater of the Back button: `(x) => Math.max(0, x - 1)`. -/
def groundingBack (x : Int) : Int := max 0 (x - 1)

/-- The updater of the Next button: `(x) => Math.min(steps.length - 1, x + 1)`. -/
def groundingNext (x : Int) : Int := min ((groundingSteps.length : Int) - 1) (x + 1)

/-- The attribute `disabled={i === 0}` of the Back button. -/
def backDisabled (i : Int) : Bool := i == 0

/-- The condition `i < steps.length - 1` choosing between the Next and the Finish
button. -/
def nextOffered (i : Int) : Bool := decide (i < (groundingSteps.length : Int) - 1)

/-- The Finish button is the other branch of the same conditional. -/
def finishOffered (i : Int) : Bool := !nextOffered i

/-- The clicks a user can attempt on `Grounding`. -/
inductive GroundingAction where
  | back | next | finish
  deriving DecidableEq, Repr

/-- One click on `Grounding` at cursor `i`: the new cursor, and whether `onFinish`
was called.  A disabled or unrendered button does nothing. -/
def groundingStep (i : Int) : GroundingAction → Int × Bool
  | GroundingAction.back => if backDisabled i then (i, false) else (groundingBack i, false)
  | GroundingAction.next => if nextOffered i then (groundingNext i, false) else (i, false)
  | GroundingAction.finish => if finishOffered i then (i, true) else (i, false)

/-- The cursor after a sequence of clicks, from `useState(0)`. -/
def groundingCursor (acts : List GroundingAction) : Int :=
  acts.foldl (fun i a => (groundingStep i a).1) 0

/-! ## Countdowns of `Breathing` and `Meditation` -/

/-- The updater run by each interval tick: `(s) => Math.max(0, s - 1)`. -/
def tick (s : Int) : Int := max 0 (s - 1)

/-- The value of `seconds` in `Breathing` after `n` ticks, from `useState(60)`. -/
def breathingSeconds (n : Nat) : Int := tick^[n] 60

/-- The value of `seconds` in `Meditation` after `n` ticks, from `useState(120)`. -/
def meditationSeconds (n : Nat) : Int := tick^[n] 120

/-- The condition `seconds === 0` of the completion effect. -/
def timerExpired (seconds : Int) : Bool := seconds == 0

/-! ## Exercise runners and their completion callback -/

/-- The local state of the component `ExerciseScreen` renders: the `seconds` cell of
`Breathing` and `Meditation`, the cursor `i` of `Grounding`; `Affirmation` keeps only
its quote, fixed at mount.  The `phase` cell of `Breathing` drives the animation only
and is left out. -/
inductive Runner where
  | breathing (seconds : Int)
  | grounding (i : Int)
  | meditation (seconds : Int)
  | affirmation
  deriving DecidableEq, Repr

/-- The dispatch of `ExerciseScreen` on the exercise id, each runner in its initial
state (`useState(60)`, `useState(0)`, `useState(120)`); `null` for any other id. -/
def mountRunner (exercise : Option String) : Option Runner :=
  if exercise = some "breathing" then some (Runner.breathing 60)
  else if exercise = some "grounding" then some (Runner.grounding 0)
  else if exercise = some "meditation" then some (Runner.meditation 120)
  else if exercise = some "quote" then some Runner.affirmation
  else none

/-- What can happen to a mounted runner: an interval tick of the countdown, a press on
the button bound to `onFinish` ("Finish early", "Finish", "Continue"), and the Back
and Next buttons of `Grounding`. -/
inductive RunnerEvent where
  | tick | finishRequest | back | next
  deriving DecidableEq, Repr

/-- One interval tick of a countdown: the updater `(s) => Math.max(0, s - 1)`, then
the effect `if (seconds === 0) onFinish()`, which runs after the render only when its
dependency `seconds` changed.  Yields the new `seconds` and whether `onFinish` was
called. -/
def countdownTick (seconds : Int) : Int × Bool :=
  (tick seconds, decide (tick seconds ≠ seconds) && timerExpired (tick seconds))

/-- One event on a mounted runner, as the component is written: the new local state
and whether the prop `onFinish` was called.  No component records an earlier call.
An event without a control in the component does nothing. -/
def runnerStep : Runner → RunnerEvent → Runner × Bool
  | Runner.breathing s, RunnerEvent.tick =>
      (Runner.breathing (countdownTick s).1, (countdownTick s).2)
  | Runner.breathing s, RunnerEvent.finishRequest => (Runner.breathing s, true)
  | Runner.breathing s, RunnerEvent.back => (Runner.breathing s, false)
  | Runner.breathing s, RunnerEvent.next => (Runner.breathing s, false)
  | Runner.meditation s, RunnerEvent.tick =>
      (Runner.meditation (countdownTick s).1, (countdownTick s).2)
  | Runner.meditation s, RunnerEvent.finishRequest => (Runner.meditation s, true)
  | Runner.meditation s, RunnerEvent.back => (Runner.meditation s, false)
  | Runner.meditation s, RunnerEvent.next => (Runner.meditation s, false)
  | Runner.grounding i, RunnerEvent.tick => (Runner.grounding i, false)
  | Runner.grounding i, RunnerEvent.finishRequest =>
      (Runner.grounding (groundingStep i GroundingAction.finish).1,
        (groundingStep i GroundingAction.finish).2)
  | Runner.grounding i, RunnerEvent.back =>
      (Runner.grounding (groundingStep i GroundingAction.back).1,
        (groundingStep i GroundingAction.back).2)
  | Runner.grounding i, RunnerEvent.next =>
      (Runner.grounding (groundingStep i GroundingAction.next).1,
        (groundingStep i GroundingAction.next).2)
  | Runner.affirmation, RunnerEvent.finishRequest => (Runner.affirmation, true)
  | Runner.affirmation, RunnerEvent.tick => (Runner.affirmation, false)
  | Runner.affirmation, RunnerEvent.back => (Runner.affirmation, false)
  | Runner.affirmation, RunnerEvent.next => (Runner.affirmation, false)

/-- A runner that stays mounted through a sequence of events (its `onFinish` prop does
not take it off the screen), with the number of calls of `onFinish` so far. -/
def bareRun (r : Runner) (evs : List RunnerEvent) : Runner × Nat :=
  evs.foldl
    (fun p e => ((runnerStep p.1 e).1, if (runnerStep p.1 e).2 = true then p.2 + 1 else p.2))
    (r, 0)

/-- The number of calls of `onFinish` by a runner that stays mounted. -/
def bareCalls (r : Runner) (evs : List RunnerEvent) : Nat := (bareRun r evs).2

/-- An exercise under `App`: the cells of `App`, the mounted runner if there is one,
and the number of calls of the `onFinish` prop so far. -/
structure ExerciseRun where
  app : AppState
  runner : Option Runner
  calls : Nat

/-- The tree `App` renders on entering a state: `ExerciseScreen` only under
`screen === "exercise"`. -/
def mountExercise (app : AppState) : ExerciseRun :=
  { app := app,
    runner := if app.screen = Screen.exercise then mountRunner app.exercise else none,
    calls := 0 }

/-- One runner event under `App`, events being handled one at a time: the mounted
runner handles it; a call of its `onFinish` prop is `setScreen("closing")`, and on the
re-render of `App` the runner stays mounted only while `screen === "exercise"`.
Without a mounted runner there is no interval and no button, and nothing happens. -/
def exerciseStep (x : ExerciseRun) (e : RunnerEvent) : ExerciseRun :=
  match x.runner with
  | none => x
  | some r =>
    if (runnerStep r e).2 = true then
      { app := onFinish x.app,
        runner := if (onFinish x.app).screen = Screen.exercise then some (runnerStep r e).1
                  else none,
        calls := x.calls + 1 }
    else
      { app := x.app,
        runner := if x.app.screen = Screen.exercise then some (runnerStep r e).1 else none,
        calls := x.calls }

/-- A sequence of runner events under `App`. -/
def runExercise (x : ExerciseRun) (evs : List RunnerEvent) : ExerciseRun :=
  evs.foldl exerciseStep x

/-- The run of the exercise `exId` chosen on the Support screen in state `st`:
`onPickExercise` shows the Exercise screen, the runner is mounted, and `evs` are
handled one at a time. -/
def exerciseRunFrom (st : AppState) (exId : String) (evs : List RunnerEvent) : ExerciseRun :=
  runExercise (mountExercise (onPickExercise exId st)) evs

/-- Over the state `app0` in which the runner was mounted: either `App` is unchanged
and `onFinish` has not been called, or `App` is `app0` moved to the Closing screen
after exactly one call and no runner is mounted. -/
def onceInvariant (app0 : AppState) (x : ExerciseRun) : Prop :=
  (x.app = app0 ∧ x.calls = 0) ∨
  (x.app = onFinish app0 ∧ x.calls = 1 ∧ x.runner = none)

/-! ## `useLocalStorage` -/

/-- A JavaScript value as `JSON.parse` can return it.  A number keeps its literal,
its numeric value plays no role here. -/
inductive Json where
  | null
  | bool (b : Bool)
  | num (literal : String)
  | str (s : String)
  | arr (xs : List Json)
  | obj (members : List (String × Json))

/-- An exception thrown by the host (`SyntaxError`, `SecurityError`, ...). -/
abbrev JsThrow := String

/-- JSON insignificant white space. -/
def isJsonWs (c : Char) : Bool := c == ' ' || c == '\t' || c == '\n' || c == '\r'

/-- Drops leading JSON white space. -/
def skipWs (cs : List Char) : List Char := cs.dropWhile isJsonWs

/-- The value of a hexadecimal digit. -/
def hexVal (c : Char) : Option Nat :=
  if '0' ≤ c ∧ c ≤ '9' then some (c.toNat - 48)
  else if 'a' ≤ c ∧ c ≤ 'f' then some (c.toNat - 87)
  else if 'A' ≤ c ∧ c ≤ 'F' then some (c.toNat - 55)
  else none

/-- The character a single-letter JSON escape denotes. -/
def escapeChar (c : Char) : Option Char :=
  if c = '"' then some '"'
  else if c = '\\' then some '\\'
  else if c = '/' then some '/'
  else if c = 'b' then some (Char.ofNat 8)
  else if c = 'f' then some (Char.ofNat 12)
  else if c = 'n' then some '\n'
  else if c = 'r' then some '\r'
  else if c = 't' then some '\t'
  else none

/-- Reads four hexadecimal digits as a UTF-16 code unit. -/
def hex4 (cs : List Char) : Option (Nat × List Char) :=
  match cs with
  | a :: b :: c :: d :: rest =>
    match hexVal a, hexVal b, hexVal c, hexVal d with
    | some x, some y, some z, some w => some (((x * 16 + y) * 16 + z) * 16 + w, rest)
    | _, _, _, _ => none
  | _ => none

/-- The character denoted by an escape of code unit `n` followed by `rest`: a high
surrogate joins an escaped low surrogate right after it into one code point.  A lone
surrogate, which a `Char` cannot hold, is read as U+FFFD. -/
def unicodeEscape (n : Nat) (rest : List Char) : Char × List Char :=
  if 0xD800 ≤ n ∧ n ≤ 0xDBFF then
    match rest with
    | b :: u :: rest1 =>
      if b = '\\' ∧ u = 'u' then
        match hex4 rest1 with
        | some (lo, rest2) =>
          if 0xDC00 ≤ lo ∧ lo ≤ 0xDFFF then
            (Char.ofNat (0x10000 + (n - 0xD800) * 0x400 + (lo - 0xDC00)), rest2)
          else (Char.ofNat 0xFFFD, rest)
        | none => (Char.ofNat 0xFFFD, rest)
      else (Char.ofNat 0xFFFD, rest)
    | _ => (Char.ofNat 0xFFFD, rest)
  else if 0xDC00 ≤ n ∧ n ≤ 0xDFFF then (Char.ofNat 0xFFFD, rest)
  else (Char.ofNat n, rest)

/-- Reads a JSON string after its opening quote: the text and the rest of the input. -/
def parseStringBody : Nat → List Char → List Char → Option (String × List Char)
  | 0, _, _ => none
  | _ + 1, _, [] => none
  | fuel + 1, acc, c :: rest =>
    if c = '"' then some (String.mk acc.reverse, rest)
    else if c = '\\' then
      match rest with
      | [] => none
      | e :: rest1 =>
        if e = 'u' then
          match hex4 rest1 with
          | some (n, rest2) =>
            parseStringBody fuel ((unicodeEscape n rest2).1 :: acc) (unicodeEscape n rest2).2
          | none => none
        else
          match escapeChar e with
          | some ch => parseStringBody fuel (ch :: acc) rest1
          | none => none
    else if c.toNat < 0x20 then none
    else parseStringBody fuel (c :: acc) rest

/-- Reads a non-empty run of decimal digits. -/
def parseDigits (cs : List Char) : Option (List Char × List Char) :=
  let ds := cs.takeWhile Char.isDigit
  if ds = [] then none else some (ds, cs.dropWhile Char.isDigit)

/-- Reads a JSON number: `-? int frac? exp?` with no superfluous leading zero. -/
def parseNumber (cs : List Char) : Option (String × List Char) :=
  let (sign, cs1) := match cs with
    | c :: rest => if c = '-' then (['-'], rest) else ([], cs)
    | [] => ([], cs)
  match parseDigits cs1 with
  | none => none
  | some (ip, cs2) =>
    if ip.head? = some '0' ∧ ip.length ≠ 1 then none
    else
      let fracPart : Option (List Char × List Char) :=
        match cs2 with
        | c :: rest =>
          if c = '.' then (parseDigits rest).map fun (ds, r) => ('.' :: ds, r)
          else some ([], cs2)
        | [] => some ([], cs2)
      match fracPart with
      | none => none
      | some (fp, cs3) =>
        let expPart : Option (List Char × List Char) :=
          match cs3 with
          | c :: rest =>
            if c = 'e' ∨ c = 'E' then
              match rest with
              | s :: rest1 =>
                if s = '+' ∨ s = '-' then
                  (parseDigits rest1).map fun (ds, r) => (c :: s :: ds, r)
                else (parseDigits rest).map fun (ds, r) => (c :: ds, r)
              | [] => none
            else some ([], cs3)
          | [] => some ([], cs3)
        match expPart with
        | none => none
        | some (ep, cs4) => some (String.mk (sign ++ ip ++ fp ++ ep), cs4)

/-- Strips a keyword from the front of the input. -/
def stripKeyword (kw : List Char) (cs : List Char) : Option (List Char) :=
  if kw.isPrefixOf cs then some (cs.drop kw.length) else none

/-- Reads the elements of an array after the first `[` (the array is not empty),
with `pv` reading one value. -/
def parseElems (pv : List Char → Option (Json × List Char)) :
    Nat → List Json → List Char → Option (List Json × List Char)
  | 0, _, _ => none
  | fuel + 1, acc, cs =>
    match pv cs with
    | none => none
    | some (v, rest) =>
      match skipWs rest with
      | [] => none
      | c :: rest1 =>
        if c = ',' then parseElems pv fuel (v :: acc) rest1
        else if c = ']' then some ((v :: acc).reverse, rest1)
        else none

/-- Reads the members of an object after the first `{` (the object is not empty),
with `pv` reading one value. -/
def parseMembers (pv : List Char → Option (Json × List Char)) :
    Nat → List (String × Json) → List Char → Option (List (String × Json) × List Char)
  | 0, _, _ => none
  | fuel + 1, acc, cs =>
    match skipWs cs with
    | [] => none
    | q :: rest =>
      if q = '"' then
        match parseStringBody rest.length [] rest with
        | none => none
        | some (k, rest1) =>
          match skipWs rest1 with
          | [] => none
          | colon :: rest2 =>
            if colon = ':' then
              match pv rest2 with
              | none => none
              | some (v, rest3) =>
                match skipWs rest3 with
                | [] => none
                | c :: rest4 =>
                  if c = ',' then parseMembers pv fuel ((k, v) :: acc) rest4
                  else if c = '}' then some (((k, v) :: acc).reverse, rest4)
                  else none
            else none
      else none

/-- Reads one JSON value, with leading white space. -/
def parseValue : Nat → List Char → Option (Json × List Char)
  | 0, _ => none
  | fuel + 1, cs =>
    match skipWs cs with
    | [] => none
    | c :: rest =>
      if c = '[' then
        match skipWs rest with
        | [] => none
        | d :: rest1 =>
          if d = ']' then some (Json.arr [], rest1)
          else (parseElems (parseValue fuel) fuel [] rest).map fun (xs, r) => (Json.arr xs, r)
      else if c = '{' then
        match skipWs rest with
        | [] => none
        | d :: rest1 =>
          if d = '}' then some (Json.obj [], rest1)
          else (parseMembers (parseValue fuel) fuel [] rest).map fun (ms, r) => (Json.obj ms, r)
      else if c = '"' then
        (parseStringBody rest.length [] rest).map fun (s, r) => (Json.str s, r)
      else if c = 't' then (stripKeyword ['r', 'u', 'e'] rest).map fun r => (Json.bool true, r)
      else if c = 'f' then
        (stripKeyword ['a', 'l', 's', 'e'] rest).map fun r => (Json.bool false, r)
      else if c = 'n' then (stripKeyword ['u', 'l', 'l'] rest).map fun r => (Json.null, r)
      else (parseNumber (c :: rest)).map fun (n, r) => (Json.num n, r)

/-- The host function `JSON.parse` on the JSON grammar: the parsed value, or a thrown
`SyntaxError`. -/
def jsonParse (raw : String) : Except JsThrow Json :=
  match parseValue (raw.length + 1) raw.data with
  | some (v, rest) => if skipWs rest = [] then Except.ok v else Except.error "SyntaxError"
  | none => Except.error "SyntaxError"

/-- The last member of an object with the given key, as property lookup sees it. -/
def member? (members : List (String × Json)) (key : String) : Option Json :=
  (members.reverse.find? fun kv => kv.1 == key).map Prod.snd

/-- The value is an object with the fields of a history entry: `ts` and `mood`
strings, `value` a number, `note` a string or `null`. -/
def isEntryShape : Json → Bool
  | Json.obj ms =>
    (match member? ms "ts" with | some (Json.str _) => true | _ => false) &&
    (match member? ms "mood" with | some (Json.str _) => true | _ => false) &&
    (match member? ms "value" with | some (Json.num _) => true | _ => false) &&
    (match member? ms "note" with
      | some (Json.str _) => true | some Json.null => true | _ => false)
  | _ => false

/-- The value is an array of history entries. -/
def isHistoryShape : Json → Bool
  | Json.arr xs => xs.all isEntryShape
  | _ => false

/-- The body of the `try` block in the state initializer of `useLocalStorage`:
`const raw = localStorage.getItem(key); return raw ? JSON.parse(raw) : initialValue;`
where `getItem` yields `null` for an absent key and may throw. -/
def initializerTry (getItem : String → Except JsThrow (Option String))
    (parse : String → Except JsThrow Json) (key : String) (initialValue : Json) :
    Except JsThrow Json :=
  match getItem key with
  | Except.error e => Except.error e
  | Except.ok raw =>
    match raw with
    | some r => if r ≠ "" then parse r else Except.ok initialValue
    | none => Except.ok initialValue

/-- The state initializer of `useLocalStorage`: the `try` body, with
`catch { return initialValue; }`. -/
def useLocalStorageInit (getItem : String → Except JsThrow (Option String))
    (parse : String → Except JsThrow Json) (key : String) (initialValue : Json) :
    Except JsThrow Json :=
  match initializerTry getItem parse key initialValue with
  | Except.ok v => Except.ok v
  | Except.error _ => Except.ok initialValue

/-- The initial history of `App`: `useLocalStorage("calmly_history", [])` over a
storage holding `stored` under each key. -/
def loadHistory (stored : String → Option String) : Except JsThrow Json :=
  useLocalStorageInit (fun k => Except.ok (stored k)) jsonParse "calmly_history" (Json.arr [])

/-- A storage whose only key is `calmly_history`, holding `raw`. -/
def storageWith (raw : String) : String → Option String :=
  fun k => if k = "calmly_history" then some raw else none

/-! ## Lemmas -/

theorem saveStep_eq (h : List HistoryEntry) (sv : SaveInput) :
    saveStep h sv = (sv.entry :: h).take 60 := rfl

theorem take_cons_take {α : Type} (n : Nat) (a : α) (l : List α) :
    (a :: l.take (n + 1)).take (n + 1) = (a :: l).take (n + 1) := by
  simp only [List.take_succ_cons, List.take_take]
  congr 1
  simp

theorem runSaves_take (svs : List SaveInput) (l : List HistoryEntry) :
    runSaves (l.take 60) svs = (((svs.map SaveInput.entry).reverse) ++ l).take 60 := by
  induction svs generalizing l with
  | nil => simp [runSaves]
  | cons sv rest ih =>
    have h1 : runSaves (l.take 60) (sv :: rest) = runSaves ((sv.entry :: l).take 60) rest := by
      simp only [runSaves, List.foldl_cons, saveStep_eq]
      rw [take_cons_take 59 sv.entry l]
    rw [h1, ih]
    simp

/-- C1. From the empty history, any sequence of saves with a mood selected leaves
exactly the `min N 60` most recent entries, newest first (the `k`-th stored entry is
the `k`-th most recent save, and nothing is stored past position `min N 60`); and one
save over any history leaves at most 60 entries. -/
theorem history_cap_invariant (svs : List SaveInput) :
    (runSaves [] svs).length = min svs.length 60 ∧
    runSaves [] svs = ((svs.map SaveInput.entry).reverse).take (min svs.length 60) ∧
    (∀ k : Nat, (runSaves [] svs)[k]? =
        if k < min svs.length 60 then (svs.map SaveInput.entry).reverse[k]? else none) ∧
    (∀ (h : List HistoryEntry) (sv : SaveInput), (saveStep h sv).length ≤ 60) := by
  have key : runSaves [] svs = ((svs.map SaveInput.entry).reverse).take 60 := by
    have := runSaves_take svs []
    simpa using this
  have key2 : runSaves [] svs = ((svs.map SaveInput.entry).reverse).take (min svs.length 60) := by
    rw [key]
    rcases Nat.lt_or_ge svs.length 60 with h | h
    · rw [Nat.min_eq_left (Nat.le_of_lt h)]
      rw [List.take_of_length_le (by simp; omega), List.take_of_length_le (by simp)]
    · rw [Nat.min_eq_right h]
  refine ⟨?_, key2, ?_, ?_⟩
  · rw [key]; simp [Nat.min_comm]
  · intro k
    rw [key2, List.getElem?_take]
  · intro h sv
    rw [saveStep_eq]
    simp [List.length_take]

/-! ### Chart projection -/

theorem map_idx_mapIdx_succ {α : Type} (f : Nat → α → ChartRow)
    (hf : ∀ i a, (f i a).idx = i + 1) (l : List α) :
    (l.mapIdx f).map ChartRow.idx = List.range' 1 l.length := by
  apply List.ext_getElem
  · simp
  · intro n h1 h2
    simp [hf]
    omega

theorem map_value_mapIdx {α : Type} (f : Nat → α → ChartRow) (g : α → ℚ)
    (hf : ∀ i a, (f i a).value = g a) (l : List α) :
    (l.mapIdx f).map ChartRow.value = l.map g := by
  apply List.ext_getElem
  · simp
  · intro n h1 h2
    simp [hf]

/-- C2. The chart data of `HistoryScreen` over a newest-first history with values
`[v1..vn]` has length `m = min n 20`, index sequence `[1..m]` and value sequence
`[vm..v1]`, the `m` most recent values reversed to oldest-first. -/
theorem projection_reordering (dateLabel : String → String) (history : List HistoryEntry) :
    (historyScreenData dateLabel history).length = min history.length 20 ∧
    (historyScreenData dateLabel history).map ChartRow.idx =
      List.range' 1 (min history.length 20) ∧
    (historyScreenData dateLabel history).map ChartRow.value =
      ((history.map HistoryEntry.value).take (min history.length 20)).reverse := by
  have hlen : ((history.take 20).reverse).length = min history.length 20 := by
    simp [Nat.min_comm]
  have htake : (history.map HistoryEntry.value).take (min history.length 20)
      = (history.map HistoryEntry.value).take 20 := by
    rcases Nat.lt_or_ge history.length 20 with h | h
    · rw [Nat.min_eq_left (Nat.le_of_lt h)]
      rw [List.take_of_length_le (by simp), List.take_of_length_le (by simp; omega)]
    · rw [Nat.min_eq_right h]
  refine ⟨?_, ?_, ?_⟩
  · simp [historyScreenData, Nat.min_comm]
  · unfold historyScreenData
    rw [map_idx_mapIdx_succ _ (fun _ _ => rfl), hlen]
  · unfold historyScreenData
    rw [map_value_mapIdx _ HistoryEntry.value (fun _ _ => rfl), htake]
    simp [List.map_take]

/-! ### Note normalization -/

theorem trimChars_eq_nil_iff (cs : List Char) :
    trimChars cs = [] ↔ ∀ c ∈ cs, isJsWhiteSpace c = true := by
  unfold trimChars
  rw [List.reverse_eq_nil_iff, List.dropWhile_eq_nil_iff]
  constructor
  · intro h c hc
    by_cases hw : isJsWhiteSpace c = true
    · exact hw
    · rw [← List.takeWhile_append_dropWhile isJsWhiteSpace cs] at hc
      rcases List.mem_append.mp hc with h1 | h2
      · exact List.mem_takeWhile_imp h1
      · exact h c (List.mem_reverse.mpr h2)
  · intro h c hc
    have h1 : c ∈ cs.dropWhile isJsWhiteSpace := List.mem_reverse.mp hc
    exact h c ((List.dropWhile_sublist isJsWhiteSpace).subset h1)

theorem trimChars_decompose (cs : List Char) :
    ∃ pre post : List Char, cs = pre ++ trimChars cs ++ post ∧
      (∀ c ∈ pre, isJsWhiteSpace c = true) ∧ (∀ c ∈ post, isJsWhiteSpace c = true) := by
  refine ⟨cs.takeWhile isJsWhiteSpace,
    ((cs.dropWhile isJsWhiteSpace).reverse.takeWhile isJsWhiteSpace).reverse, ?_, ?_, ?_⟩
  · unfold trimChars
    rw [List.append_assoc, ← List.reverse_append, List.takeWhile_append_dropWhile,
      List.reverse_reverse, List.takeWhile_append_dropWhile]
  · intro c hc
    exact List.mem_takeWhile_imp hc
  · intro c hc
    exact List.mem_takeWhile_imp (List.mem_reverse.mp hc)

theorem trimChars_getLast (cs : List Char) (c : Char)
    (h : (trimChars cs).getLast? = some c) : isJsWhiteSpace c = false := by
  unfold trimChars at h
  rw [List.getLast?_reverse] at h
  have := List.head?_dropWhile_not isJsWhiteSpace (cs.dropWhile isJsWhiteSpace).reverse
  rw [h] at this
  exact this

theorem trimChars_head (cs : List Char) (c : Char)
    (h : (trimChars cs).head? = some c) : isJsWhiteSpace c = false := by
  have hne : trimChars cs ≠ [] := by
    intro h0
    rw [h0] at h
    simp at h
  -- the trimmed text is a prefix of `cs.dropWhile`, whose head is not white space
  have hpre : ∃ post, cs.dropWhile isJsWhiteSpace = trimChars cs ++ post := by
    refine ⟨((cs.dropWhile isJsWhiteSpace).reverse.takeWhile isJsWhiteSpace).reverse, ?_⟩
    unfold trimChars
    rw [← List.reverse_append, List.takeWhile_append_dropWhile, List.reverse_reverse]
  obtain ⟨post, hpost⟩ := hpre
  have h2 : (cs.dropWhile isJsWhiteSpace).head? = some c := by
    rw [hpost, List.head?_append_of_ne_nil _ hne, h]
  have := List.head?_dropWhile_not isJsWhiteSpace cs
  rw [h2] at this
  exact this

theorem jsTrim_eq_empty_iff (s : String) :
    jsTrim s = "" ↔ ∀ c ∈ s.data, isJsWhiteSpace c = true := by
  rw [← trimChars_eq_nil_iff, String.ext_iff]
  rfl

theorem noteField_eq_none_iff (s : String) : noteField s = none ↔ jsTrim s = "" := by
  unfold noteField
  by_cases h : jsTrim s = "" <;> simp [h]

/-- C3. The entry `completeSession` stores for a session note `s` has `note = null`
exactly when `s` trimmed of leading and trailing white space is empty (that is, when
every character of `s` is white space) and otherwise the trimmed `s`, which is `s`
without a white-space prefix and suffix and neither starts nor ends with white space;
so `""` and `"   "` give `null` and `"  ok  "` gives `"ok"`. -/
theorem note_normalization (now : String) (m : Mood) (scr : Screen) (ex : Option String)
    (h : List HistoryEntry) (s : String) :
    (completeSession now
        { screen := scr, mood := some m, exercise := ex, note := s, history := h }).history.head?
      = some (mkEntry now m s) ∧
    ((mkEntry now m s).note = none ↔ jsTrim s = "") ∧
    ((mkEntry now m s).note = none ↔ ∀ c ∈ s.data, isJsWhiteSpace c = true) ∧
    ((mkEntry now m s).note = if jsTrim s = "" then none else some (jsTrim s)) ∧
    (∃ pre post : List Char, s.data = pre ++ (jsTrim s).data ++ post ∧
      (∀ c ∈ pre, isJsWhiteSpace c = true) ∧ (∀ c ∈ post, isJsWhiteSpace c = true)) ∧
    (∀ c, (jsTrim s).data.head? = some c ∨ (jsTrim s).data.getLast? = some c →
      isJsWhiteSpace c = false) ∧
    (mkEntry now m "").note = none ∧
    (mkEntry now m "   ").note = none ∧
    (mkEntry now m "  ok  ").note = some "ok" := by
  refine ⟨rfl, noteField_eq_none_iff s, ?_, rfl, trimChars_decompose s.data, ?_, ?_, ?_, ?_⟩
  · exact (noteField_eq_none_iff s).trans (jsTrim_eq_empty_iff s)
  · intro c hc
    rcases hc with hc | hc
    · exact trimChars_head s.data c hc
    · exact trimChars_getLast s.data c hc
  · show noteField "" = none
    decide
  · show noteField "   " = none
    decide
  · show noteField "  ok  " = some "ok"
    decide

/-! ### Navigation -/

/-- C4 (as stated) fails: from the Closing screen of a session with mood Sad, exercise
Breathing and note "abc", the Home and History buttons leave the session non-empty. -/
theorem abort_navigation_counterexample :
    abandonedClosing.screen = Screen.closing ∧
    sessionEmpty (step abandonedClosing Event.navHome) = false ∧
    sessionEmpty (step abandonedClosing Event.navHistory) = false ∧
    (step abandonedClosing Event.navHome).mood.isSome = true ∧
    (step abandonedClosing Event.navHome).exercise = some "breathing" ∧
    (step abandonedClosing Event.navHome).note = "abc" := by
  refine ⟨rfl, ?_, ?_, rfl, rfl, rfl⟩ <;> decide

/-- C4 (amended). From every state, the Home button leads to screen Home and the
History button to screen History; both leave the history log and the session fields
(mood, exercise, note) exactly as they were. -/
theorem abort_navigation_keeps_session (st : AppState) :
    (step st Event.navHome).screen = Screen.home ∧
    (step st Event.navHistory).screen = Screen.history ∧
    (step st Event.navHome).history = st.history ∧
    (step st Event.navHistory).history = st.history ∧
    (step st Event.navHome).mood = st.mood ∧
    (step st Event.navHome).exercise = st.exercise ∧
    (step st Event.navHome).note = st.note ∧
    (step st Event.navHistory).mood = st.mood ∧
    (step st Event.navHistory).exercise = st.exercise ∧
    (step st Event.navHistory).note = st.note :=
  ⟨rfl, rfl, rfl, rfl, rfl, rfl, rfl, rfl, rfl, rfl⟩

/-- After an abandoned Closing screen, the next session reaches its own Closing screen
with the note typed in the abandoned one. -/
theorem abandoned_note_carried_over :
    (run abandonedClosing
      [Event.navHome, Event.pickMood moodSad, Event.chooseExercise "quote",
       Event.finishExercise]).screen = Screen.closing ∧
    (run abandonedClosing
      [Event.navHome, Event.pickMood moodSad, Event.chooseExercise "quote",
       Event.finishExercise]).note = "abc" :=
  ⟨rfl, rfl⟩

/-! ### End-to-end session -/

theorem rendersRunner_of_mem (k : String) (hk : k ∈ EXERCISES) :
    rendersRunner (some k) = true := by
  simp only [EXERCISES, List.mem_cons, List.mem_singleton, List.not_mem_nil, or_false] at hk
  rcases hk with rfl | rfl | rfl | rfl <;> decide

/-- C6. From the initial state over an empty history, for every mood `m` (in
particular each element of `MOODS`), every exercise id `k` of `EXERCISES` and every
note `s`: pick mood, choose exercise, exercise completion, note input and save end on
screen Home with the empty session and a history holding exactly one entry, with
`mood = m.id`, `value = m.value` and the normalized note. -/
theorem end_to_end_session (m : Mood) (k s now : String) (hk : k ∈ EXERCISES) :
    run (initialState [])
        [Event.pickMood m, Event.chooseExercise k, Event.finishExercise, Event.setNote s,
         Event.save now] =
      { screen := Screen.home, mood := none, exercise := none, note := "",
        history := [{ ts := now, mood := m.id, value := m.value, note := noteField s }] } := by
  have hr := rendersRunner_of_mem k hk
  simp [run, step, initialState, startSupport, onPickExercise, onFinish, setNote,
    completeSession, mkEntry, hr]

/-- C6 at Sad, Meditation, "felt better": one entry with value 2 and that note. -/
theorem end_to_end_session_witness :
    moodSad ∈ MOODS ∧ "meditation" ∈ EXERCISES ∧
    run (initialState [])
        [Event.pickMood moodSad, Event.chooseExercise "meditation", Event.finishExercise,
         Event.setNote "felt better", Event.save "2024-05-01T10:00:00.000Z"] =
      { screen := Screen.home, mood := none, exercise := none, note := "",
        history := [{ ts := "2024-05-01T10:00:00.000Z", mood := "sad", value := 2,
                      note := some "felt better" }] } := by
  refine ⟨?_, by decide, ?_⟩
  · exact List.Mem.tail _ (List.Mem.tail _ (List.Mem.head _))
  · have hn : noteField "felt better" = some "felt better" := by decide
    have h := end_to_end_session moodSad "meditation" "felt better"
      "2024-05-01T10:00:00.000Z" (by decide)
    rw [hn] at h
    exact h

/-! ### Grounding -/

theorem groundingStep_bounds (i : Int) (a : GroundingAction) (h0 : 0 ≤ i) (h4 : i ≤ 4) :
    0 ≤ (groundingStep i a).1 ∧ (groundingStep i a).1 ≤ 4 := by
  cases a
  · by_cases hb : backDisabled i = true
    · simp [groundingStep, hb, h0, h4]
    · simp only [groundingStep, hb, groundingBack]
      simp
      omega
  · by_cases hn : nextOffered i = true
    · simp only [groundingStep, hn, groundingNext, groundingSteps]
      simp
      omega
    · simp [groundingStep, hn, h0, h4]
  · by_cases hf : finishOffered i = true <;> simp [groundingStep, hf, h0, h4]

theorem grounding_foldl_bounds (acts : List GroundingAction) (i : Int)
    (h0 : 0 ≤ i) (h4 : i ≤ 4) :
    0 ≤ acts.foldl (fun i a => (groundingStep i a).1) i ∧
    acts.foldl (fun i a => (groundingStep i a).1) i ≤ 4 := by
  induction acts generalizing i with
  | nil => exact ⟨h0, h4⟩
  | cons a rest ih =>
    have hb := groundingStep_bounds i a h0 h4
    exact ih _ hb.1 hb.2

theorem finishOffered_iff (i : Int) (h4 : i ≤ 4) : finishOffered i = true ↔ i = 4 := by
  simp [finishOffered, nextOffered, groundingSteps]
  omega

/-- C7. The Grounding cursor starts at 0 and stays within `[0, 4]` under every
sequence of clicks; Back at 0 and Next at 4 leave it where it is (both by the
clamping updaters and by the rendered buttons); the Finish button is offered exactly
at cursor 4, and a click calls `onFinish` exactly when it is Finish at cursor 4. -/
theorem grounding_bounds (acts : List GroundingAction) :
    groundingCursor [] = 0 ∧
    0 ≤ groundingCursor acts ∧ groundingCursor acts ≤ 4 ∧
    groundingBack 0 = 0 ∧ (groundingStep 0 GroundingAction.back).1 = 0 ∧
    groundingNext 4 = 4 ∧ (groundingStep 4 GroundingAction.next).1 = 4 ∧
    (finishOffered (groundingCursor acts) = true ↔ groundingCursor acts = 4) ∧
    (∀ a, (groundingStep (groundingCursor acts) a).2 = true ↔
      (a = GroundingAction.finish ∧ groundingCursor acts = 4)) := by
  have hb := grounding_foldl_bounds acts 0 (le_refl 0) (by decide)
  have hf := finishOffered_iff (groundingCursor acts) hb.2
  refine ⟨rfl, hb.1, hb.2, by decide, by decide, by decide, by decide, hf, ?_⟩
  intro a
  cases a
  · by_cases h : backDisabled (groundingCursor acts) = true <;> simp [groundingStep, h]
  · by_cases h : nextOffered (groundingCursor acts) = true <;> simp [groundingStep, h]
  · by_cases h : finishOffered (groundingCursor acts) = true
    · have h4 : groundingCursor acts = 4 := hf.mp h
      simp only [groundingStep, h, if_true, true_and, true_iff]
      exact h4
    · have h4 : ¬ groundingCursor acts = 4 := fun e => h (hf.mpr e)
      simp [groundingStep, h, h4]

/-! ### Countdowns -/

theorem tick_iterate (n : Nat) (s : Int) (hs : 0 ≤ s) : tick^[n] s = max 0 (s - n) := by
  induction n generalizing s with
  | zero => simp [hs]
  | succ n ih =>
    rw [Function.iterate_succ_apply, ih (tick s) (by unfold tick; exact le_max_left _ _)]
    unfold tick
    rcases le_total 0 (s - 1) with h | h
    · rw [max_eq_right h]
      congr 1
      push_cast
      ring
    · rw [max_eq_left h]
      rw [max_eq_left (by omega), max_eq_left (by push_cast; omega)]

/-- C8. After `n` one-second ticks the Breathing countdown is `max 0 (60 - n)` and
the Meditation countdown is `max 0 (120 - n)`; neither is ever negative, and the
expiry condition `seconds === 0` holds exactly for `n ≥ 60`, respectively `n ≥ 120`. -/
theorem countdown_floor (n : Nat) :
    breathingSeconds n = max 0 (60 - (n : Int)) ∧
    meditationSeconds n = max 0 (120 - (n : Int)) ∧
    0 ≤ breathingSeconds n ∧ 0 ≤ meditationSeconds n ∧
    (timerExpired (breathingSeconds n) = true ↔ 60 ≤ n) ∧
    (timerExpired (meditationSeconds n) = true ↔ 120 ≤ n) := by
  have hb : breathingSeconds n = max 0 (60 - (n : Int)) := tick_iterate n 60 (by decide)
  have hm : meditationSeconds n = max 0 (120 - (n : Int)) := tick_iterate n 120 (by decide)
  refine ⟨hb, hm, ?_, ?_, ?_, ?_⟩
  · rw [hb]; exact le_max_left _ _
  · rw [hm]; exact le_max_left _ _
  · rw [hb]
    simp [timerExpired]
  · rw [hm]
    simp [timerExpired]

/-! ### Mood-present invariant -/

theorem moodPresent_step (st : AppState) (e : Event) (h : moodPresent st) :
    moodPresent (step st e) := by
  unfold moodPresent at *
  cases e with
  | pickMood m =>
    by_cases hs : st.screen = Screen.home
    · simp [step, hs, startSupport]
    · simpa [step, hs] using h
  | back =>
    by_cases hs : st.screen = Screen.support
    · simp [step, hs, onBack]
    · simpa [step, hs] using h
  | chooseExercise exId =>
    by_cases hs : st.screen = Screen.support
    · have hm := h (Or.inl hs)
      simp [step, hs, onPickExercise, hm]
    · simpa [step, hs] using h
  | finishExercise =>
    by_cases hs : st.screen = Screen.exercise ∧ rendersRunner st.exercise = true
    · have hm := h (Or.inr (Or.inl hs.1))
      simp [step, hs, onFinish, hm]
    · simp only [step, hs, if_false]
      exact h
  | setNote s =>
    by_cases hs : st.screen = Screen.closing
    · have hm := h (Or.inr (Or.inr hs))
      simp [step, hs, setNote, hm]
    · simpa [step, hs] using h
  | save now =>
    by_cases hs : st.screen = Screen.closing
    · simp [step, hs, completeSession]
    · simpa [step, hs] using h
  | navHome => simp [step, onNavHome]
  | navHistory => simp [step, onNavHistory]

theorem moodPresent_run (evs : List Event) (st : AppState) (h : moodPresent st) :
    moodPresent (run st evs) := by
  induction evs generalizing st with
  | nil => exact h
  | cons e rest ih => exact ih (step st e) (moodPresent_step st e h)

/-- C10. In every state reached from the initial state (screen Home, no mood, any
loaded history) by any sequence of events, a mood is selected whenever the screen is
Support, Exercise or Closing; so an exercise is only ever chosen with a mood present,
and a save from Closing always takes the `if (mood)` branch and stores exactly one
new entry at the head of the (capped) history. -/
theorem mood_present_invariant (h0 : List HistoryEntry) (evs : List Event) :
    ((run (initialState h0) evs).screen = Screen.support ∨
      (run (initialState h0) evs).screen = Screen.exercise ∨
      (run (initialState h0) evs).screen = Screen.closing →
        (run (initialState h0) evs).mood ≠ none) ∧
    (∀ exId, (step (run (initialState h0) evs) (Event.chooseExercise exId)).screen
        = Screen.exercise → (run (initialState h0) evs).mood ≠ none) ∧
    ((run (initialState h0) evs).screen = Screen.closing →
      ∀ now, ∃ m, (run (initialState h0) evs).mood = some m ∧
        (step (run (initialState h0) evs) (Event.save now)).history =
          (mkEntry now m (run (initialState h0) evs).note ::
            (run (initialState h0) evs).history).take 60 ∧
        (step (run (initialState h0) evs) (Event.save now)).history.length =
          min ((run (initialState h0) evs).history.length + 1) 60) := by
  have hinit : moodPresent (initialState h0) := by
    intro h
    simp [initialState] at h
  have hinv := moodPresent_run evs (initialState h0) hinit
  generalize run (initialState h0) evs = st at hinv
  unfold moodPresent at hinv
  refine ⟨?_, ?_, ?_⟩
  · intro hs hm
    have := hinv hs
    rw [hm] at this
    exact Bool.noConfusion this
  · intro exId hs hm
    by_cases hsup : st.screen = Screen.support
    · have := hinv (Or.inl hsup)
      rw [hm] at this
      exact Bool.noConfusion this
    · simp only [step, hsup, if_false] at hs
      have := hinv (Or.inr (Or.inl hs))
      rw [hm] at this
      exact Bool.noConfusion this
  · intro hs now
    have hsome := hinv (Or.inr (Or.inr hs))
    obtain ⟨m, hm⟩ := Option.isSome_iff_exists.mp hsome
    refine ⟨m, hm, ?_, ?_⟩
    · simp [step, hs, completeSession, hm]
    · simp only [step, hs, if_true, completeSession, hm, List.length_take, List.length_cons]
      exact Nat.min_comm _ _

/-! ### Loading the history -/

/-- C5 (as stated) fails: the stored text `5` and the stored empty-object literal
(written with escaped braces below) are valid JSON that is not an array of history
entries, and the loaded history is the parsed number, respectively object, not the
empty log. -/
theorem corrupt_storage_counterexample :
    jsonParse "5" = Except.ok (Json.num "5") ∧
    isHistoryShape (Json.num "5") = false ∧
    loadHistory (storageWith "5") = Except.ok (Json.num "5") ∧
    loadHistory (storageWith "5") ≠ Except.ok (Json.arr []) ∧
    jsonParse "\x7b\x7d" = Except.ok (Json.obj []) ∧
    isHistoryShape (Json.obj []) = false ∧
    loadHistory (storageWith "\x7b\x7d") = Except.ok (Json.obj []) ∧
    loadHistory (storageWith "\x7b\x7d") ≠ Except.ok (Json.arr []) := by
  refine ⟨rfl, rfl, rfl, ?_, rfl, rfl, rfl, ?_⟩
  · intro h
    have h1 : loadHistory (storageWith "5") = Except.ok (Json.num "5") := rfl
    rw [h1] at h
    cases h
  · intro h
    have h1 : loadHistory (storageWith "\x7b\x7d") = Except.ok (Json.obj []) := rfl
    rw [h1] at h
    cases h

/-- C5 (amended). The state initializer of `useLocalStorage` never throws, whatever
the storage and `JSON.parse` do; it yields the initial value when the key is absent,
when the stored text is empty, when reading the storage throws and when `JSON.parse`
throws; and a non-empty stored text that parses is loaded as its parsed value,
whatever its shape. -/
theorem useLocalStorage_recovery (getItem : String → Except JsThrow (Option String))
    (parse : String → Except JsThrow Json) (key : String) (initialValue : Json) :
    (∃ v, useLocalStorageInit getItem parse key initialValue = Except.ok v) ∧
    (getItem key = Except.ok none →
      useLocalStorageInit getItem parse key initialValue = Except.ok initialValue) ∧
    (getItem key = Except.ok (some "") →
      useLocalStorageInit getItem parse key initialValue = Except.ok initialValue) ∧
    (∀ e, getItem key = Except.error e →
      useLocalStorageInit getItem parse key initialValue = Except.ok initialValue) ∧
    (∀ raw e, getItem key = Except.ok (some raw) → parse raw = Except.error e →
      useLocalStorageInit getItem parse key initialValue = Except.ok initialValue) ∧
    (∀ raw v, getItem key = Except.ok (some raw) → raw ≠ "" → parse raw = Except.ok v →
      useLocalStorageInit getItem parse key initialValue = Except.ok v) := by
  refine ⟨?_, ?_, ?_, ?_, ?_, ?_⟩
  · unfold useLocalStorageInit
    cases initializerTry getItem parse key initialValue with
    | ok v => exact ⟨v, rfl⟩
    | error e => exact ⟨initialValue, rfl⟩
  · intro h
    simp [useLocalStorageInit, initializerTry, h]
  · intro h
    simp [useLocalStorageInit, initializerTry, h]
  · intro e h
    simp [useLocalStorageInit, initializerTry, h]
  · intro raw e h hp
    by_cases hr : raw = ""
    · simp [useLocalStorageInit, initializerTry, h, hr]
    · simp [useLocalStorageInit, initializerTry, h, hr, hp]
  · intro raw v h hr hp
    simp [useLocalStorageInit, initializerTry, h, hr, hp]

/-- C5 (amended) at concrete storages: an absent key, an empty text and the invalid
text `not json` all load the empty log. -/
theorem useLocalStorage_recovery_witness :
    loadHistory (fun _ => none) = Except.ok (Json.arr []) ∧
    loadHistory (storageWith "") = Except.ok (Json.arr []) ∧
    jsonParse "not json" = Except.error "SyntaxError" ∧
    loadHistory (storageWith "not json") = Except.ok (Json.arr []) :=
  have h := useLocalStorage_recovery (fun k => Except.ok (storageWith "not json" k))
    jsonParse "calmly_history" (Json.arr [])
  ⟨(useLocalStorage_recovery (fun _ => Except.ok none) jsonParse "calmly_history"
      (Json.arr [])).2.1 rfl,
   (useLocalStorage_recovery (fun k => Except.ok (storageWith "" k)) jsonParse
      "calmly_history" (Json.arr [])).2.2.1 rfl,
   rfl,
   h.2.2.2.2.1 "not json" "SyntaxError" rfl rfl⟩

/-! ### Completion of an exercise runner -/

theorem onceInvariant_step (app0 : AppState) (x : ExerciseRun) (e : RunnerEvent)
    (h : onceInvariant app0 x) : onceInvariant app0 (exerciseStep x e) := by
  unfold exerciseStep
  cases hr : x.runner with
  | none => simpa using h
  | some r =>
    rcases h with ⟨hs, hc⟩ | ⟨_, _, hn⟩
    · by_cases hcall : (runnerStep r e).2 = true
      · right
        simp [hcall, onFinish, hc, hs]
      · left
        simp [hcall, hs, hc]
    · rw [hn] at hr
      cases hr

theorem onceInvariant_run (app0 : AppState) (evs : List RunnerEvent) (x : ExerciseRun)
    (h : onceInvariant app0 x) : onceInvariant app0 (runExercise x evs) := by
  induction evs generalizing x with
  | nil => exact h
  | cons e rest ih => exact ih (exerciseStep x e) (onceInvariant_step app0 x e h)

theorem runExercise_unmounted (evs : List RunnerEvent) (x : ExerciseRun)
    (h : x.runner = none) : runExercise x evs = x := by
  induction evs with
  | nil => rfl
  | cons e rest ih =>
    have hstep : exerciseStep x e = x := by
      unfold exerciseStep
      rw [h]
    show runExercise (exerciseStep x e) rest = x
    rw [hstep, ih]

theorem runExercise_snoc (x : ExerciseRun) (evs : List RunnerEvent) (e : RunnerEvent) :
    runExercise x (evs ++ [e]) = exerciseStep (runExercise x evs) e := by
  simp [runExercise, List.foldl_append]

theorem countdownTick_pos (s : Int) (hs : 0 < s) :
    countdownTick s = (s - 1, decide (s = 1)) := by
  have ht : tick s = s - 1 := by
    unfold tick
    exact max_eq_right (by omega)
  unfold countdownTick
  rw [ht]
  congr 1
  by_cases h1 : s = 1
  · subst h1
    decide
  · have h2 : ¬ (s - 1 = 0) := by omega
    simp [timerExpired, h1, h2]

theorem exerciseStep_called (x : ExerciseRun) (r : Runner) (e : RunnerEvent)
    (hr : x.runner = some r) (hcall : (runnerStep r e).2 = true) :
    exerciseStep x e = { app := onFinish x.app, runner := none, calls := x.calls + 1 } := by
  unfold exerciseStep
  rw [hr]
  simp [hcall, onFinish]

theorem exerciseStep_quiet (x : ExerciseRun) (r : Runner) (e : RunnerEvent)
    (hr : x.runner = some r) (hq : (runnerStep r e).2 = false)
    (hs : x.app.screen = Screen.exercise) :
    exerciseStep x e = { app := x.app, runner := some (runnerStep r e).1, calls := x.calls } := by
  unfold exerciseStep
  rw [hr]
  simp [hq, hs]

/-- The run of a countdown runner `mk` (Breathing or Meditation) from `S` seconds:
still mounted with `S - ticks` seconds left and no call, or unmounted after exactly
one call, caused by a finish request or the `S`-th tick. -/
theorem countdown_run (mk : Int → Runner) (S : Nat) (hS : 0 < S)
    (htick : ∀ s, runnerStep (mk s) RunnerEvent.tick
      = (mk (countdownTick s).1, (countdownTick s).2))
    (hfin : ∀ s, runnerStep (mk s) RunnerEvent.finishRequest = (mk s, true))
    (hback : ∀ s, runnerStep (mk s) RunnerEvent.back = (mk s, false))
    (hnext : ∀ s, runnerStep (mk s) RunnerEvent.next = (mk s, false))
    (app : AppState) (happ : app.screen = Screen.exercise) (evs : List RunnerEvent) :
    ((runExercise { app := app, runner := some (mk S), calls := 0 } evs).runner
        = some (mk ((S : Int) - (evs.count RunnerEvent.tick : Nat))) ∧
      (runExercise { app := app, runner := some (mk S), calls := 0 } evs).calls = 0 ∧
      (runExercise { app := app, runner := some (mk S), calls := 0 } evs).app = app ∧
      evs.count RunnerEvent.tick < S ∧ RunnerEvent.finishRequest ∉ evs) ∨
    ((runExercise { app := app, runner := some (mk S), calls := 0 } evs).runner = none ∧
      (runExercise { app := app, runner := some (mk S), calls := 0 } evs).calls = 1 ∧
      (RunnerEvent.finishRequest ∈ evs ∨ S ≤ evs.count RunnerEvent.tick)) := by
  induction evs using List.reverseRecOn with
  | nil =>
    left
    refine ⟨?_, rfl, rfl, ?_, ?_⟩
    · simp [runExercise]
    · simpa using hS
    · simp
  | append_singleton evs e ih =>
    rw [runExercise_snoc]
    generalize runExercise { app := app, runner := some (mk S), calls := 0 } evs = x at ih
    rcases ih with ⟨hr, hc, ha, hlt, hnf⟩ | ⟨hr, hc, hw⟩
    · obtain ⟨s, hs⟩ : ∃ s : Int, s = (S : Int) - (evs.count RunnerEvent.tick : Nat) :=
        ⟨_, rfl⟩
      rw [← hs] at hr
      have hpos : 0 < s := by omega
      have hscr : x.app.screen = Screen.exercise := by rw [ha]; exact happ
      cases e with
      | tick =>
        have hcnt : (evs ++ [RunnerEvent.tick]).count RunnerEvent.tick
            = evs.count RunnerEvent.tick + 1 := by
          simp [List.count_append]
        have hstep : runnerStep (mk s) RunnerEvent.tick = (mk (s - 1), decide (s = 1)) := by
          rw [htick, countdownTick_pos s hpos]
        by_cases h1 : s = 1
        · right
          have hcall : (runnerStep (mk s) RunnerEvent.tick).2 = true := by
            rw [hstep]
            simp [h1]
          rw [exerciseStep_called x (mk s) _ hr hcall]
          refine ⟨rfl, ?_, ?_⟩
          · simp [hc]
          · right
            rw [hcnt]
            omega
        · left
          have hq : (runnerStep (mk s) RunnerEvent.tick).2 = false := by
            rw [hstep]
            simp [h1]
          rw [exerciseStep_quiet x (mk s) _ hr hq hscr]
          refine ⟨?_, hc, ha, ?_, ?_⟩
          · show some (runnerStep (mk s) RunnerEvent.tick).1 = _
            rw [hstep, hcnt]
            show some (mk (s - 1)) = _
            congr 2
            push_cast
            omega
          · rw [hcnt]
            omega
          · simpa using hnf
      | finishRequest =>
        right
        have hcall : (runnerStep (mk s) RunnerEvent.finishRequest).2 = true := by
          rw [hfin]
        rw [exerciseStep_called x (mk s) _ hr hcall]
        refine ⟨rfl, ?_, ?_⟩
        · simp [hc]
        · left
          simp
      | back =>
        left
        have hq : (runnerStep (mk s) RunnerEvent.back).2 = false := by
          rw [hback]
        rw [exerciseStep_quiet x (mk s) _ hr hq hscr]
        have hcnt : (evs ++ [RunnerEvent.back]).count RunnerEvent.tick
            = evs.count RunnerEvent.tick := by
          simp [List.count_append]
        refine ⟨?_, hc, ha, ?_, ?_⟩
        · show some (runnerStep (mk s) RunnerEvent.back).1 = _
          rw [hback, hcnt, hs]
        · rw [hcnt]
          exact hlt
        · simpa using hnf
      | next =>
        left
        have hq : (runnerStep (mk s) RunnerEvent.next).2 = false := by
          rw [hnext]
        rw [exerciseStep_quiet x (mk s) _ hr hq hscr]
        have hcnt : (evs ++ [RunnerEvent.next]).count RunnerEvent.tick
            = evs.count RunnerEvent.tick := by
          simp [List.count_append]
        refine ⟨?_, hc, ha, ?_, ?_⟩
        · show some (runnerStep (mk s) RunnerEvent.next).1 = _
          rw [hnext, hcnt, hs]
        · rw [hcnt]
          exact hlt
        · simpa using hnf
    · right
      have hstep : exerciseStep x e = x := by
        unfold exerciseStep
        rw [hr]
      rw [hstep]
      refine ⟨hr, hc, ?_⟩
      rcases hw with hw | hw
      · left
        simp [hw]
      · right
        have : evs.count RunnerEvent.tick ≤ (evs ++ [e]).count RunnerEvent.tick := by
          simp [List.count_append]
        omega

theorem countdown_calls_iff (mk : Int → Runner) (S : Nat) (hS : 0 < S)
    (htick : ∀ s, runnerStep (mk s) RunnerEvent.tick
      = (mk (countdownTick s).1, (countdownTick s).2))
    (hfin : ∀ s, runnerStep (mk s) RunnerEvent.finishRequest = (mk s, true))
    (hback : ∀ s, runnerStep (mk s) RunnerEvent.back = (mk s, false))
    (hnext : ∀ s, runnerStep (mk s) RunnerEvent.next = (mk s, false))
    (app : AppState) (happ : app.screen = Screen.exercise) (evs : List RunnerEvent) :
    (runExercise { app := app, runner := some (mk S), calls := 0 } evs).calls = 1 ↔
      (RunnerEvent.finishRequest ∈ evs ∨ S ≤ evs.count RunnerEvent.tick) := by
  rcases countdown_run mk S hS htick hfin hback hnext app happ evs with
    ⟨_, hc, _, hlt, hnf⟩ | ⟨_, hc, hw⟩
  · rw [hc]
    constructor
    · intro h
      cases h
    · rintro (h | h)
      · exact absurd h hnf
      · omega
  · rw [hc]
    exact ⟨fun _ => hw, fun _ => rfl⟩

theorem affirmation_run (app : AppState) (happ : app.screen = Screen.exercise)
    (evs : List RunnerEvent) :
    ((runExercise { app := app, runner := some Runner.affirmation, calls := 0 } evs).runner
        = some Runner.affirmation ∧
      (runExercise { app := app, runner := some Runner.affirmation, calls := 0 } evs).calls = 0 ∧
      (runExercise { app := app, runner := some Runner.affirmation, calls := 0 } evs).app = app ∧
      RunnerEvent.finishRequest ∉ evs) ∨
    ((runExercise { app := app, runner := some Runner.affirmation, calls := 0 } evs).runner
        = none ∧
      (runExercise { app := app, runner := some Runner.affirmation, calls := 0 } evs).calls = 1 ∧
      RunnerEvent.finishRequest ∈ evs) := by
  induction evs using List.reverseRecOn with
  | nil =>
    left
    exact ⟨rfl, rfl, rfl, by simp⟩
  | append_singleton evs e ih =>
    rw [runExercise_snoc]
    generalize runExercise { app := app, runner := some Runner.affirmation, calls := 0 } evs
      = x at ih
    rcases ih with ⟨hr, hc, ha, hnf⟩ | ⟨hr, hc, hw⟩
    · cases e with
      | finishRequest =>
        right
        refine ⟨?_, ?_, ?_⟩
        · simp [exerciseStep, hr, runnerStep, onFinish]
        · simp [exerciseStep, hr, runnerStep, hc]
        · simp
      | tick =>
        left
        refine ⟨?_, ?_, ?_, ?_⟩
        · simp [exerciseStep, hr, runnerStep, ha, happ]
        · simp [exerciseStep, hr, runnerStep, hc]
        · simp [exerciseStep, hr, runnerStep, ha]
        · simpa using hnf
      | back =>
        left
        refine ⟨?_, ?_, ?_, ?_⟩
        · simp [exerciseStep, hr, runnerStep, ha, happ]
        · simp [exerciseStep, hr, runnerStep, hc]
        · simp [exerciseStep, hr, runnerStep, ha]
        · simpa using hnf
      | next =>
        left
        refine ⟨?_, ?_, ?_, ?_⟩
        · simp [exerciseStep, hr, runnerStep, ha, happ]
        · simp [exerciseStep, hr, runnerStep, hc]
        · simp [exerciseStep, hr, runnerStep, ha]
        · simpa using hnf
    · right
      have hstep : exerciseStep x e = x := by
        unfold exerciseStep
        rw [hr]
      rw [hstep]
      exact ⟨hr, hc, by simp [hw]⟩

set_option maxRecDepth 100000 in
/-- C9 (as stated) fails: the runner has no guard of its own.  `Breathing`, mounted
with `seconds = 60` and kept mounted, calls `onFinish` once at the 60th tick and a
second time at a "Finish early" press that follows; two presses call it twice as
well. -/
theorem exactly_once_counterexample :
    mountRunner (some "breathing") = some (Runner.breathing 60) ∧
    bareCalls (Runner.breathing 60) (List.replicate 60 RunnerEvent.tick) = 1 ∧
    bareCalls (Runner.breathing 60)
      (List.replicate 60 RunnerEvent.tick ++ [RunnerEvent.finishRequest]) = 2 ∧
    bareCalls (Runner.breathing 60)
      [RunnerEvent.finishRequest, RunnerEvent.finishRequest] = 2 :=
  ⟨rfl, rfl, rfl, rfl⟩

/-- C9 (amended). Under `App`, with ticks and button presses handled one at a time,
every run of an exercise runner calls `onFinish` at most once: the count is 1 exactly
when the screen has become Closing and 0 exactly while the Exercise screen is shown;
after the call `App` is the state at mount moved to Closing, no runner is mounted and
no further event changes anything, so there is never a second call.  The call does
happen: Breathing completes exactly when a finish request or the 60th tick has
occurred, Meditation at a finish request or the 120th tick, Affirmation at its
Continue press, Grounding at Finish after four Next presses (Finish is not offered at
cursor 0). -/
theorem exactly_once_under_app (st : AppState) (exId : String) (evs : List RunnerEvent) :
    (exerciseRunFrom st exId evs).calls ≤ 1 ∧
    ((exerciseRunFrom st exId evs).calls = 1 ↔
      (exerciseRunFrom st exId evs).app.screen = Screen.closing) ∧
    ((exerciseRunFrom st exId evs).calls = 0 ↔
      (exerciseRunFrom st exId evs).app.screen = Screen.exercise) ∧
    ((exerciseRunFrom st exId evs).app =
      if (exerciseRunFrom st exId evs).calls = 1 then onFinish (onPickExercise exId st)
      else onPickExercise exId st) ∧
    (∀ more : List RunnerEvent, (exerciseRunFrom st exId evs).calls = 1 →
      (exerciseRunFrom st exId evs).runner = none ∧
      runExercise (exerciseRunFrom st exId evs) more = exerciseRunFrom st exId evs) ∧
    ((exerciseRunFrom st "breathing" evs).calls = 1 ↔
      (RunnerEvent.finishRequest ∈ evs ∨ 60 ≤ evs.count RunnerEvent.tick)) ∧
    ((exerciseRunFrom st "meditation" evs).calls = 1 ↔
      (RunnerEvent.finishRequest ∈ evs ∨ 120 ≤ evs.count RunnerEvent.tick)) ∧
    ((exerciseRunFrom st "quote" evs).calls = 1 ↔ RunnerEvent.finishRequest ∈ evs) ∧
    (exerciseRunFrom st "grounding"
      [RunnerEvent.next, RunnerEvent.next, RunnerEvent.next, RunnerEvent.next,
       RunnerEvent.finishRequest]).calls = 1 ∧
    (exerciseRunFrom st "grounding" [RunnerEvent.finishRequest]).calls = 0 := by
  have hinit : onceInvariant (onPickExercise exId st) (mountExercise (onPickExercise exId st)) :=
    Or.inl ⟨rfl, rfl⟩
  have hinv : onceInvariant (onPickExercise exId st) (exerciseRunFrom st exId evs) :=
    onceInvariant_run _ evs _ hinit
  have h0 : (onPickExercise exId st).screen = Screen.exercise := rfl
  have h1 : (onFinish (onPickExercise exId st)).screen = Screen.closing := rfl
  refine ⟨?_, ?_, ?_, ?_, ?_, ?_, ?_, ?_, rfl, rfl⟩
  · rcases hinv with ⟨_, hc⟩ | ⟨_, hc, _⟩ <;> rw [hc]
    exact Nat.zero_le 1
  · rcases hinv with ⟨ha, hc⟩ | ⟨ha, hc, _⟩ <;> rw [ha, hc]
    · rw [h0]
      constructor
      · intro h
        cases h
      · intro h
        cases h
    · rw [h1]
      exact ⟨fun _ => rfl, fun _ => rfl⟩
  · rcases hinv with ⟨ha, hc⟩ | ⟨ha, hc, _⟩ <;> rw [ha, hc]
    · rw [h0]
      exact ⟨fun _ => rfl, fun _ => rfl⟩
    · rw [h1]
      constructor
      · intro h
        cases h
      · intro h
        cases h
  · rcases hinv with ⟨ha, hc⟩ | ⟨ha, hc, _⟩ <;> rw [ha, hc]
    · simp
    · simp
  · intro more hcalls
    rcases hinv with ⟨_, hc⟩ | ⟨_, _, hr⟩
    · rw [hc] at hcalls
      cases hcalls
    · exact ⟨hr, runExercise_unmounted more _ hr⟩
  · exact countdown_calls_iff Runner.breathing 60 (by decide) (fun _ => rfl) (fun _ => rfl)
      (fun _ => rfl) (fun _ => rfl) (onPickExercise "breathing" st) rfl evs
  · exact countdown_calls_iff Runner.meditation 120 (by decide) (fun _ => rfl) (fun _ => rfl)
      (fun _ => rfl) (fun _ => rfl) (onPickExercise "meditation" st) rfl evs
  · have hrun := affirmation_run (onPickExercise "quote" st) rfl evs
    have heq : exerciseRunFrom st "quote" evs =
        runExercise { app := onPickExercise "quote" st, runner := some Runner.affirmation,
                      calls := 0 } evs := rfl
    rw [heq]
    rcases hrun with ⟨_, hc, _, hnf⟩ | ⟨_, hc, hw⟩ <;> rw [hc]
    · constructor
      · intro h
        cases h
      · intro h
        exact absurd h hnf
    · exact ⟨fun _ => hw, fun _ => rfl⟩

end Calmly
